import Mathlib

/-!
Verification of the SmartGroceryList core (src/smart_grocery_list.py).

The Python source is shallowly embedded: strings are `String` (lists of
characters), Python floats are modelled as exact rationals `ℚ`, dictionaries
become association lists, and the fallible pieces (`re.match` failure,
`eval` raising) become `Option`.  The embedding follows the source line by
line:

* `unit_conversions`, `logical_units`, `cost_database`, `dietary_filters`
  are the four module-level tables.
* `parse_quantity` embeds the function of the same name: the raw string is
  split on `\s*\+\s*`, each segment is matched against
  `([\d./]+)\s*([a-zA-Z]*)`, the numeric token is evaluated with Python
  `eval` semantics over the characters digits, `.` and `/` (chained true
  division `/` and floor division `//`, Python literal rules for leading
  zeros), and contributions are accumulated with the last resolved base
  unit winning.
* `consolidate_ingredients` embeds the consolidation pipeline from the
  point where `ingredients_list` has been built: the `None` early return,
  the positive-amount filter, the pandas `groupby` (keys sorted
  ascending), the pandas `Series.mode().iloc[0]` unit choice (modes are
  returned sorted, so `.iloc[0]` is the lexicographically least tied
  mode), and the dietary filter.
* `calculate_costs` embeds the cost estimator.
-/

set_option maxRecDepth 8192

namespace SmartGrocery

/-- Known unit conversions table (`unit_conversions` in the source). -/
def unit_conversions : List (String × ℚ) :=
  [("tbs", 15), ("tbsp", 15), ("tsp", 5), ("cup", 240),
   ("oz", 28.35), ("lb", 453.59), ("ml", 1), ("l", 1000),
   ("g", 1), ("kg", 1000)]

/-- The mass-origin abbreviations, the list the source tests with
`unit_part in ["g", "kg", "oz", "lb"]`. -/
def mass_units : List String := ["g", "kg", "oz", "lb"]

/-- Logical units for common ingredients (`logical_units` in the source). -/
def logical_units : List (String × String) :=
  [("parsley", "bunches"), ("sugar", "grams"), ("salt", "grams"),
   ("flour", "grams"), ("butter", "grams"), ("milk", "milliliters"),
   ("water", "milliliters"), ("eggs", "pieces"), ("oil", "milliliters"),
   ("vanilla", "teaspoons")]

/-- Ingredient costs (`cost_database` in the source). -/
def cost_database : List (String × ℚ) :=
  [("milk", 0.002), ("sugar", 0.005), ("eggs", 0.25),
   ("flour", 0.002), ("butter", 0.01), ("water", 0.0001)]

/-- Dietary filters (`dietary_filters` in the source). -/
def dietary_filters : List (String × List String) :=
  [("vegan", ["milk", "butter", "eggs", "cheese", "cream"]),
   ("gluten-free", ["flour", "wheat"])]

/-- ASCII whitespace recognised by the regex class `\s`. -/
def isPySpace (c : Char) : Bool :=
  c == ' ' || c == '\t' || c == '\n' || c == '\r' || c == '\x0b' || c == '\x0c'

/-- The character class `[\d./]` of the numeric-token group. -/
def numChar (c : Char) : Bool :=
  c.isDigit || c == '.' || c == '/'

/-- Python `str.lower` restricted to ASCII (all table keys are ASCII). -/
def pyLower (s : String) : String :=
  ⟨s.data.map Char.toLower⟩

/-- Decimal value of a digit string. -/
def digitsVal (l : List Char) : ℕ :=
  l.foldl (fun n c => 10 * n + (c.toNat - 48)) 0

/-- Value of one Python numeric literal over digits and at most one dot.
Mirrors CPython: a decimal integer literal may not have a leading zero
unless it is all zeros; float literals (`12.`, `.5`, `05.5`) may. Returns
`none` exactly when CPython raises `SyntaxError` on the token. -/
def evalToken (l : List Char) : Option ℚ :=
  if l.isEmpty then none
  else if l.all Char.isDigit then
    if l.head? == some '0' && !(l.all (· == '0')) then none
    else some (digitsVal l)
  else if l.count '.' == 1 then
    let a := l.takeWhile (· ≠ '.')
    let b := (l.dropWhile (· ≠ '.')).tail
    if a.all Char.isDigit && b.all Char.isDigit && !(a.isEmpty && b.isEmpty) then
      some ((digitsVal a : ℚ) + (digitsVal b : ℚ) / (10 ^ b.length : ℚ))
    else none
  else none

/-- Evaluate the chain of divisions after the first literal.  The pieces
are the slash-separated chunks of the token; an empty piece means the
surrounding slashes were adjacent, i.e. a floor-division `//` operator.
`pendingFloor` records one such pending empty piece; two in a row (`///`)
or a trailing slash is a `SyntaxError`, a zero divisor a
`ZeroDivisionError`, both modelled as `none`. -/
def evalOps (acc : ℚ) (pendingFloor : Bool) : List (List Char) → Option ℚ
  | [] => if pendingFloor then none else some acc
  | p :: ps =>
    if p.isEmpty then
      if pendingFloor then none else evalOps acc true ps
    else
      match evalToken p with
      | none => none
      | some v =>
        if v = 0 then none
        else evalOps (if pendingFloor then ((Rat.floor (acc / v) : ℤ) : ℚ) else acc / v) false ps

/-- Split a character list on a separator character (every occurrence). -/
def splitOnCh (sep : Char) : List Char → List (List Char)
  | [] => [[]]
  | c :: cs =>
    let r := splitOnCh sep cs
    if c == sep then [] :: r
    else
      match r with
      | [] => [[c]]
      | h :: t => (c :: h) :: t

/-- Python `eval` of a string over digits, `.` and `/`: the leading
literal followed by chained `/` and `//` divisions, left-associative.
`none` models an exception (`SyntaxError` / `ZeroDivisionError`). -/
def pyEval (l : List Char) : Option ℚ :=
  match splitOnCh '/' l with
  | [] => none
  | p :: ps =>
    match evalToken p with
    | none => none
    | some v => evalOps v false ps

/-- Remove trailing regex whitespace. -/
def dropTrailingWs (l : List Char) : List Char :=
  (l.reverse.dropWhile isPySpace).reverse

/-- Adjust the parts after the first one produced by splitting on `+`:
each loses the whitespace adjacent to its leading `+`, and every part
followed by another `+` also loses its trailing whitespace. -/
def segsRest : List (List Char) → List (List Char)
  | [] => []
  | [p] => [p.dropWhile isPySpace]
  | p :: ps => dropTrailingWs (p.dropWhile isPySpace) :: segsRest ps

/-- The segments produced by `re.split(r"\s*\+\s*", quantity)`: split on
the literal `+`, with the whitespace around each `+` consumed by the
pattern.  A string with no `+` is one untouched segment. -/
def segmentsOf (l : List Char) : List (List Char) :=
  match splitOnCh '+' l with
  | [] => []
  | [p] => [p]
  | p :: ps => dropTrailingWs p :: segsRest ps

/-- `re.match(r"([\d./]+)\s*([a-zA-Z]*)", part)`: the maximal leading run
of `[\d./]` characters (must be nonempty for the match to succeed),
skipped whitespace, then the maximal run of ASCII letters. -/
def segRegex (part : List Char) : Option (List Char × List Char) :=
  let t1 := part.takeWhile numChar
  if t1.isEmpty then none
  else some (t1, ((part.drop t1.length).dropWhile isPySpace).takeWhile Char.isAlpha)

/-- One iteration of the segment loop of `parse_quantity`: `none` when the
segment is skipped (no regex match, or `eval` raised and the `except`
clause fired), otherwise the contribution to `total` together with the
base unit this segment resolved, if any. -/
def segEval (part : List Char) : Option (ℚ × Option String) :=
  match segRegex part with
  | none => none
  | some (t1, ut) =>
    match pyEval t1 with
    | none => none
    | some v =>
      let up := pyLower ⟨ut⟩
      match unit_conversions.lookup up with
      | some m =>
        some (v * m, some (if mass_units.contains up then "grams" else "milliliters"))
      | none => some (v, none)

/-- The numeric contribution of one segment (0 when skipped). -/
def segContribution (part : List Char) : ℚ :=
  match segEval part with
  | none => 0
  | some (v, _) => v

/-- The base unit resolved by one segment, if any. -/
def segUnit (part : List Char) : Option String :=
  match segEval part with
  | none => none
  | some (_, u) => u

/-- The `for part in …` loop of `parse_quantity`, threading `total` and
the `unit` variable. -/
def parseLoop : List (List Char) → ℚ → Option String → ℚ × Option String
  | [], t, u => (t, u)
  | p :: ps, t, u =>
    match segEval p with
    | none => parseLoop ps t u
    | some (v, none) => parseLoop ps (t + v) u
    | some (v, some bu) => parseLoop ps (t + v) (some bu)

/-- The source's `parse_quantity(quantity, ingredient)`. -/
def parse_quantity (quantity ingredient : String) : ℚ × String :=
  let st := parseLoop (segmentsOf quantity.data) 0 none
  match st.2 with
  | some u => (st.1, u)
  | none => (st.1, (logical_units.lookup (pyLower ingredient)).getD "pieces")

/-- One consolidated grocery-list row (a row of `df_grouped`). -/
structure Row where
  ingredient : String
  quantity : ℚ
  unit : String
deriving DecidableEq

/-- `df` after the `apply` of `parse_quantity`: each raw
`(Ingredient, Quantity)` entry keeps its ingredient name and gains the
parsed amount and unit. -/
def parsedEntries (entries : List (String × String)) : List (String × ℚ × String) :=
  entries.map (fun e => (e.1, parse_quantity e.2 e.1))

/-- `df = df[df["Parsed Quantity"] > 0]`: the entries surviving the
zero-amount filter. -/
def positiveEntries (entries : List (String × String)) : List (String × ℚ × String) :=
  (parsedEntries entries).filter (fun p => decide (0 < p.2.1))

/-- Least element of a list of strings (lexicographic order). -/
def lexMin : List String → String
  | [] => ""
  | x :: xs => xs.foldl min x

/-- The values of maximal multiplicity in `l` — the set pandas
`Series.mode` returns. -/
def modeCandidates (l : List String) : List String :=
  l.dedup.filter (fun s => l.all (fun t => decide (l.count t ≤ l.count s)))

/-- `Series.mode().iloc[0]`: pandas returns the modes sorted ascending,
so `.iloc[0]` is the lexicographically least value of maximal
multiplicity. -/
def pandasMode (l : List String) : String :=
  lexMin (modeCandidates l)

/-- Insert into a sorted list of strings. -/
def insertStr (s : String) : List String → List String
  | [] => [s]
  | x :: xs => if s ≤ x then s :: x :: xs else x :: insertStr s xs

/-- Sort a list of strings ascending (pandas `groupby` sorts the group
keys). -/
def sortStrs (l : List String) : List String :=
  l.foldr insertStr []

/-- The unit values contributed to the group of one ingredient. -/
def groupUnits (entries : List (String × String)) (ing : String) : List String :=
  ((positiveEntries entries).filter (fun p => p.1 == ing)).map (fun p => p.2.2)

/-- `df.groupby("Ingredient", as_index=False).apply(...)`: one row per
distinct ingredient (keys sorted ascending), quantity summed over the
group, unit chosen by `mode().iloc[0]`. -/
def groupRows (entries : List (String × String)) : List Row :=
  let fl := positiveEntries entries
  (sortStrs ((fl.map (fun p => p.1)).dedup)).map (fun k =>
    { ingredient := k,
      quantity := ((fl.filter (fun p => p.1 == k)).map (fun p => p.2.1)).sum,
      unit := pandasMode (groupUnits entries k) })

/-- The dietary-filter step of `consolidate_ingredients`: with no filter
requested the rows pass through; otherwise the exclusion list is looked
up (defaulting to the empty list for an unrecognised name) and rows whose
case-folded ingredient is excluded are dropped. -/
def apply_filter (rows : List Row) (filter_type : Option String) : List Row :=
  match filter_type with
  | none => rows
  | some ft =>
    let excluded := (dietary_filters.lookup ft).getD []
    rows.filter (fun r => !(excluded.contains (pyLower r.ingredient)))

/-- The source's `consolidate_ingredients`, from the point where the raw
`ingredients_list` of (ingredient, measure) pairs has been assembled:
`None` when that list is empty, otherwise parse, drop non-positive
amounts, group, and filter. -/
def consolidate_ingredients (entries : List (String × String))
    (filter_type : Option String) : Option (List Row) :=
  if entries.isEmpty then none
  else some (apply_filter (groupRows entries) filter_type)

/-- Default fallback cost per unit in `calculate_costs`. -/
def default_cost_per_unit : ℚ := 0.10

/-- The inner `get_cost` of `calculate_costs`. -/
def get_cost (ingredient : String) (quantity : ℚ) : ℚ :=
  ((cost_database.lookup (pyLower ingredient)).getD default_cost_per_unit) * quantity

/-- The source's `calculate_costs`: each row paired with its estimated
cost. -/
def calculate_costs (rows : List Row) : List (Row × ℚ) :=
  rows.map (fun r => (r, get_cost r.ingredient r.quantity))

/-- The unit the parser falls back to for an ingredient. -/
def fallbackUnit (ingredient : String) : String :=
  (logical_units.lookup (pyLower ingredient)).getD "pieces"

/-- The last base unit resolved by any segment, threading the `unit`
variable of the source's loop. -/
def lastSome : List String → Option String → Option String
  | [], u => u
  | x :: xs, _ => lastSome xs (some x)

/-- The base unit resolved by the whole raw string: that of the last
segment that resolved one. -/
def lastResolvedUnit (quantity : String) : Option String :=
  lastSome ((segmentsOf quantity.data).filterMap segUnit) none

/-! ### Character-class facts -/

lemma isAlpha_isDigit_false (c : Char) (h : c.isAlpha = true) : c.isDigit = false := by
  cases hval : c.isDigit
  · rfl
  · exfalso
    simp only [Char.isDigit, Char.isAlpha, Char.isUpper, Char.isLower, Bool.or_eq_true,
      Bool.and_eq_true, decide_eq_true_eq] at hval h
    have hd2 : c.val.toNat ≤ 57 := hval.2
    rcases h with ⟨ha1, _⟩ | ⟨ha1, _⟩
    · have h65 : 65 ≤ c.val.toNat := ha1
      omega
    · have h97 : 97 ≤ c.val.toNat := ha1
      omega

lemma isAlpha_not_numChar (c : Char) (h : c.isAlpha = true) : numChar c = false := by
  have h1 : (c == '.') = false := by
    cases h1 : c == '.'
    · rfl
    · rw [beq_iff_eq] at h1; subst h1; exact absurd h (by decide)
  have h2 : (c == '/') = false := by
    cases h2 : c == '/'
    · rfl
    · rw [beq_iff_eq] at h2; subst h2; exact absurd h (by decide)
  simp [numChar, isAlpha_isDigit_false c h, h1, h2]

lemma isAlpha_not_isPySpace (c : Char) (h : c.isAlpha = true) : isPySpace c = false := by
  cases hs : isPySpace c
  · rfl
  · exfalso
    simp only [isPySpace, Bool.or_eq_true, beq_iff_eq] at hs
    rcases hs with ((((h1 | h1) | h1) | h1) | h1) | h1 <;> (subst h1; exact absurd h (by decide))

lemma isAlpha_ne_plus (c : Char) (h : c.isAlpha = true) : (c == '+') = false := by
  cases h2 : c == '+'
  · rfl
  · rw [beq_iff_eq] at h2; subst h2; exact absurd h (by decide)

lemma numChar_ne_plus (c : Char) (h : numChar c = true) : (c == '+') = false := by
  cases h2 : c == '+'
  · rfl
  · rw [beq_iff_eq] at h2; subst h2; exact absurd h (by decide)

/-! ### List helpers -/

lemma takeWhile_append_all (p : Char → Bool) (l₁ l₂ : List Char)
    (h : ∀ a ∈ l₁, p a = true) :
    (l₁ ++ l₂).takeWhile p = l₁ ++ l₂.takeWhile p := by
  induction l₁ with
  | nil => simp
  | cons c cs ih =>
    simp only [List.cons_append, List.takeWhile_cons, h c (by simp)]
    rw [ih (fun a ha => h a (by simp [ha]))]
    simp

lemma takeWhile_all (p : Char → Bool) (l : List Char)
    (h : ∀ a ∈ l, p a = true) : l.takeWhile p = l := by
  induction l with
  | nil => rfl
  | cons c cs ih =>
    simp only [List.takeWhile_cons, h c (by simp)]
    rw [ih (fun a ha => h a (by simp [ha]))]
    simp

lemma takeWhile_eq_nil (p : Char → Bool) (l : List Char)
    (h : ∀ c, l.head? = some c → p c = false) : l.takeWhile p = [] := by
  cases l with
  | nil => rfl
  | cons c cs => simp [List.takeWhile_cons, h c rfl]

lemma dropWhile_eq_self (p : Char → Bool) (l : List Char)
    (h : ∀ c, l.head? = some c → p c = false) : l.dropWhile p = l := by
  cases l with
  | nil => rfl
  | cons c cs => simp [List.dropWhile_cons, h c rfl]

lemma splitOnCh_no_sep (sep : Char) (l : List Char)
    (h : ∀ c ∈ l, (c == sep) = false) : splitOnCh sep l = [l] := by
  induction l with
  | nil => rfl
  | cons c cs ih =>
    simp only [splitOnCh, h c (by simp), Bool.false_eq_true, if_false]
    rw [ih (fun a ha => h a (by simp [ha]))]

/-! ### The segment loop as a sum plus a last-resolved unit -/

lemma segContribution_of_segEval_none (part : List Char) (h : segEval part = none) :
    segContribution part = 0 := by
  simp [segContribution, h]

lemma segUnit_of_segEval_none (part : List Char) (h : segEval part = none) :
    segUnit part = none := by
  simp [segUnit, h]

lemma parseLoop_fst (ps : List (List Char)) : ∀ (t : ℚ) (u : Option String),
    (parseLoop ps t u).1 = t + (ps.map segContribution).sum := by
  induction ps with
  | nil => intro t u; simp [parseLoop]
  | cons p ps ih =>
    intro t u
    have hc : segContribution p = match segEval p with | none => 0 | some (v, _) => v := rfl
    cases h : segEval p with
    | none =>
      simp only [parseLoop, h, List.map_cons, List.sum_cons, hc]
      rw [ih t u]
      ring
    | some vu =>
      obtain ⟨v, uo⟩ := vu
      cases uo with
      | none =>
        simp only [parseLoop, h, List.map_cons, List.sum_cons, hc]
        rw [ih (t + v) u]
        ring
      | some bu =>
        simp only [parseLoop, h, List.map_cons, List.sum_cons, hc]
        rw [ih (t + v) (some bu)]
        ring

lemma parseLoop_snd (ps : List (List Char)) : ∀ (t : ℚ) (u : Option String),
    (parseLoop ps t u).2 = lastSome (ps.filterMap segUnit) u := by
  induction ps with
  | nil => intro t u; rfl
  | cons p ps ih =>
    intro t u
    cases h : segEval p with
    | none =>
      have hu : segUnit p = none := segUnit_of_segEval_none p h
      simp only [parseLoop, h, List.filterMap_cons, hu]
      exact ih t u
    | some vu =>
      obtain ⟨v, uo⟩ := vu
      cases uo with
      | none =>
        have hu : segUnit p = none := by simp [segUnit, h]
        simp only [parseLoop, h, List.filterMap_cons, hu]
        exact ih (t + v) u
      | some bu =>
        have hu : segUnit p = some bu := by simp [segUnit, h]
        simp only [parseLoop, h, List.filterMap_cons, hu, lastSome]
        exact ih (t + v) (some bu)

/-- Helper: the total returned by `parse_quantity` is the sum of the
per-segment contributions. -/
lemma parse_fst_eq_sum (q i : String) :
    (parse_quantity q i).1 = ((segmentsOf q.data).map segContribution).sum := by
  unfold parse_quantity
  cases h : (parseLoop (segmentsOf q.data) 0 none).2 with
  | none => simp only [h]; rw [parseLoop_fst, zero_add]
  | some u => simp only [h]; rw [parseLoop_fst, zero_add]

/-- Helper: the unit returned by `parse_quantity` is the last resolved
base unit when there is one, and the logical fallback otherwise. -/
lemma parse_snd_eq (q i : String) :
    (parse_quantity q i).2 =
      match lastResolvedUnit q with
      | some u => u
      | none => fallbackUnit i := by
  unfold parse_quantity
  have h2 : (parseLoop (segmentsOf q.data) 0 none).2 = lastResolvedUnit q :=
    parseLoop_snd (segmentsOf q.data) 0 none
  cases h : lastResolvedUnit q with
  | none => rw [h] at h2; simp only [h2]; rfl
  | some u => rw [h] at h2; simp only [h2]

lemma sum_filter_isSome (l : List (List Char)) :
    ((l.filter (fun p => (segEval p).isSome)).map segContribution).sum =
      (l.map segContribution).sum := by
  induction l with
  | nil => rfl
  | cons p ps ih =>
    cases h : segEval p with
    | none =>
      have hc : segContribution p = 0 := segContribution_of_segEval_none p h
      simp [List.filter_cons, h, hc, ih]
    | some vu =>
      simp [List.filter_cons, h, ih]

/-! ### Mode with sorted tie-break, sorted keys, groups -/

lemma foldl_min_mem (xs : List String) : ∀ x : String, xs.foldl min x ∈ x :: xs := by
  induction xs with
  | nil => intro x; simp
  | cons y ys ih =>
    intro x
    have h := ih (min x y)
    rw [List.foldl_cons]
    rcases List.mem_cons.mp h with h1 | h1
    · rcases min_choice x y with hm | hm
      · rw [h1, hm]; exact List.mem_cons_self _ _
      · rw [h1, hm]; exact List.mem_cons_of_mem _ (List.mem_cons_self _ _)
    · exact List.mem_cons_of_mem _ (List.mem_cons_of_mem _ h1)

lemma foldl_min_le_init (xs : List String) : ∀ x : String, xs.foldl min x ≤ x := by
  induction xs with
  | nil => intro x; simp
  | cons y ys ih =>
    intro x
    calc (y :: ys).foldl min x = ys.foldl min (min x y) := rfl
    _ ≤ min x y := ih (min x y)
    _ ≤ x := min_le_left x y

lemma foldl_min_le (xs : List String) : ∀ (x y : String), y ∈ x :: xs → xs.foldl min x ≤ y := by
  induction xs with
  | nil =>
    intro x y hy
    simp at hy
    simp [hy]
  | cons z zs ih =>
    intro x y hy
    rcases List.mem_cons.mp hy with h1 | h1
    · subst h1
      exact foldl_min_le_init (z :: zs) y
    · rcases List.mem_cons.mp h1 with h2 | h2
      · subst h2
        calc (y :: zs).foldl min x = zs.foldl min (min x y) := rfl
        _ ≤ min x y := foldl_min_le_init zs (min x y)
        _ ≤ y := min_le_right x y
      · exact ih (min x z) y (List.mem_cons_of_mem _ h2)

lemma lexMin_mem (l : List String) (h : l ≠ []) : lexMin l ∈ l := by
  cases l with
  | nil => exact absurd rfl h
  | cons x xs => exact foldl_min_mem xs x

lemma lexMin_le (l : List String) (y : String) (hy : y ∈ l) : lexMin l ≤ y := by
  cases l with
  | nil => simp at hy
  | cons x xs => exact foldl_min_le xs x y hy

lemma exists_max_image (g : String → ℕ) (l : List String) (h : l ≠ []) :
    ∃ s ∈ l, ∀ t ∈ l, g t ≤ g s := by
  induction l with
  | nil => exact absurd rfl h
  | cons x xs ih =>
    cases xs with
    | nil => exact ⟨x, by simp, by simp⟩
    | cons y ys =>
      obtain ⟨s, hs, hsmax⟩ := ih (by simp)
      by_cases hc : g x ≤ g s
      · refine ⟨s, List.mem_cons_of_mem _ hs, ?_⟩
        intro t ht
        rcases List.mem_cons.mp ht with h1 | h1
        · subst h1; exact hc
        · exact hsmax t h1
      · refine ⟨x, List.mem_cons_self _ _, ?_⟩
        intro t ht
        rcases List.mem_cons.mp ht with h1 | h1
        · subst h1; exact le_refl _
        · exact le_trans (hsmax t h1) (le_of_not_le hc)

lemma mem_modeCandidates (l : List String) (s : String) :
    s ∈ modeCandidates l ↔ s ∈ l ∧ ∀ t ∈ l, l.count t ≤ l.count s := by
  simp [modeCandidates, List.mem_filter, List.mem_dedup, List.all_eq_true]

lemma modeCandidates_ne_nil (l : List String) (h : l ≠ []) : modeCandidates l ≠ [] := by
  obtain ⟨s, hs, hsmax⟩ := exists_max_image (fun t => l.count t) l h
  exact List.ne_nil_of_mem ((mem_modeCandidates l s).mpr ⟨hs, hsmax⟩)

/-- The three properties of `mode().iloc[0]`: it occurs in the list, it has
maximal multiplicity, and it is lexicographically least among the values of
maximal multiplicity. -/
lemma pandasMode_spec (l : List String) (h : l ≠ []) :
    pandasMode l ∈ l
    ∧ (∀ t ∈ l, l.count t ≤ l.count (pandasMode l))
    ∧ (∀ t ∈ l, l.count t = l.count (pandasMode l) → pandasMode l ≤ t) := by
  have hmem : pandasMode l ∈ modeCandidates l := lexMin_mem _ (modeCandidates_ne_nil l h)
  obtain ⟨hin, hmax⟩ := (mem_modeCandidates l _).mp hmem
  refine ⟨hin, hmax, ?_⟩
  intro t ht hcount
  have htc : t ∈ modeCandidates l := by
    refine (mem_modeCandidates l t).mpr ⟨ht, ?_⟩
    intro r hr
    exact le_trans (hmax r hr) (le_of_eq hcount.symm)
  exact lexMin_le _ t htc

lemma mem_insertStr (a s : String) (l : List String) :
    a ∈ insertStr s l ↔ a = s ∨ a ∈ l := by
  induction l with
  | nil => simp [insertStr]
  | cons x xs ih =>
    by_cases hc : s ≤ x
    · simp [insertStr, hc]
    · simp only [insertStr, hc, if_false, List.mem_cons, ih]
      tauto

lemma mem_sortStrs (a : String) (l : List String) : a ∈ sortStrs l ↔ a ∈ l := by
  induction l with
  | nil => simp [sortStrs]
  | cons x xs ih =>
    simp only [sortStrs, List.foldr_cons, mem_insertStr, List.mem_cons]
    rw [show xs.foldr insertStr [] = sortStrs xs from rfl, ih]

/-- Helper: every group key of `groupRows` names a nonempty group. -/
lemma group_ne_nil (entries : List (String × String)) (k : String)
    (hk : k ∈ sortStrs (((positiveEntries entries).map (fun p => p.1)).dedup)) :
    (positiveEntries entries).filter (fun p => p.1 == k) ≠ [] := by
  have h1 : k ∈ ((positiveEntries entries).map (fun p => p.1)).dedup :=
    (mem_sortStrs _ _).mp hk
  have h2 : k ∈ (positiveEntries entries).map (fun p => p.1) := List.mem_dedup.mp h1
  obtain ⟨p, hp, hpk⟩ := List.mem_map.mp h2
  have : p ∈ (positiveEntries entries).filter (fun p => p.1 == k) :=
    List.mem_filter.mpr ⟨hp, by simp [hpk]⟩
  exact List.ne_nil_of_mem this

/-- Helper: `groupUnits` of a group key is nonempty. -/
lemma groupUnits_ne_nil (entries : List (String × String)) (k : String)
    (hk : k ∈ sortStrs (((positiveEntries entries).map (fun p => p.1)).dedup)) :
    groupUnits entries k ≠ [] := by
  intro h0
  apply group_ne_nil entries k hk
  have := congrArg List.length h0
  simp only [groupUnits, List.length_map] at this
  exact List.eq_nil_of_length_eq_zero this

/-- Helper: filtering never adds rows. -/
lemma apply_filter_sublist (rows : List Row) (f : Option String) :
    (apply_filter rows f).Sublist rows := by
  cases f with
  | none => exact List.Sublist.refl rows
  | some ft => exact List.filter_sublist rows

/-- Helper: every value in the cost table is nonnegative, as is the
default. -/
lemma lookup_getD_nonneg (l : List (String × ℚ)) (h : ∀ p ∈ l, 0 ≤ p.2)
    (s : String) (d : ℚ) (hd : 0 ≤ d) : 0 ≤ (l.lookup s).getD d := by
  induction l with
  | nil => simpa [List.lookup]
  | cons kv rest ih =>
    by_cases hc : s == kv.1
    · simp only [List.lookup, hc, if_true]
      exact h kv (by simp)
    · simp only [List.lookup, hc, if_false]
      exact ih (fun p hp => h p (by simp [hp]))

/-! ### Claims about the quantity parser -/

/-- C3 counterexample: the claim says a chained token such as "1/2/2" does
not match the accepted shape and is silently skipped, contributing 0; in
fact the source's `eval` evaluates it to 0.25, so the parse of "1/2/2"
returns amount 1/4, not 0. -/
theorem C3_counterexample :
    parse_quantity "1/2/2" "x" = (1/4, "pieces") ∧ ((1 : ℚ)/4 ≠ 0) := by
  with_unfolding_all decide

/-- C3 (amended): a segment contributes a value whenever its leading
`[\d./]+` token evaluates as a (possibly chained) Python division
expression; it is skipped with zero contribution exactly when the regex
does not match or the token fails to evaluate (malformed literal, stray
slashes, division by zero).  A chained token such as "1/2/2" is not
skipped: it evaluates left-associatively to 1/4 and contributes that
value. -/
theorem C3_segment_eval_amended :
    (∀ part : List Char, segRegex part = none → segContribution part = 0)
    ∧ (∀ part t ut : List Char, segRegex part = some (t, ut) → pyEval t = none →
        segContribution part = 0)
    ∧ pyEval ("1/2/2".data) = some (1/4)
    ∧ pyEval ("1/0".data) = none
    ∧ parse_quantity "1/2/2" "x" = (1/4, "pieces") := by
  refine ⟨?_, ?_, ?_, ?_, ?_⟩
  · intro part h
    simp [segContribution, segEval, h]
  · intro part t ut h1 h2
    simp [segContribution, segEval, h1, h2]
  · with_unfolding_all decide
  · with_unfolding_all decide
  · with_unfolding_all decide

/-- C3 witness: the segment "1//" matches the regex but its token fails to
evaluate (trailing operator), so it contributes 0. -/
theorem C3_witness : segContribution ("1//".data) = 0 :=
  C3_segment_eval_amended.2.1 ("1//".data) ("1//".data) []
    (by with_unfolding_all decide) (by with_unfolding_all decide)

/-- C4 counterexample: the claim says a zero accumulated amount forces the
per-ingredient fallback unit; but `parse("0 g", "milk")` returns amount 0
with unit "grams" (the resolved unit of the zero-valued segment), not the
fallback "milliliters" for milk — the source only checks `not unit`,
never the amount. -/
theorem C4_counterexample :
    parse_quantity "0 g" "milk" = (0, "grams")
    ∧ fallbackUnit "milk" = "milliliters"
    ∧ ("grams" : String) ≠ "milliliters" := by
  with_unfolding_all decide

/-- C4 (amended): the returned unit is the per-ingredient fallback (looked
up by case-folded name, default "pieces") exactly when no segment resolved
a base unit — regardless of the accumulated amount; and
`parse("2 eggs", "eggs")` yields amount 2 and unit "pieces". -/
theorem C4_fallback_unit_amended :
    (∀ q i : String, lastResolvedUnit q = none →
      (parse_quantity q i).2 = fallbackUnit i)
    ∧ parse_quantity "2 eggs" "eggs" = (2, "pieces") := by
  constructor
  · intro q i h
    rw [parse_snd_eq q i, h]
  · with_unfolding_all decide

/-- C4 witness: "2" resolves no base unit, so the unit of
`parse("2", "x")` is the fallback for "x", namely "pieces". -/
theorem C4_witness :
    (parse_quantity "2" "x").2 = fallbackUnit "x" ∧ fallbackUnit "x" = "pieces" :=
  ⟨C4_fallback_unit_amended.1 "2" "x" (by with_unfolding_all decide),
   by with_unfolding_all decide⟩

/-- C5: the returned amount is the sum of all segments' numeric
contributions, the returned unit is the base unit of the last segment (in
left-to-right order) that resolved one, and
`parse("1 cup + 2 tbsp", "water")` yields amount 270 and unit
"milliliters". -/
theorem C5_sum_and_last_unit :
    (∀ q i : String,
      (parse_quantity q i).1 = ((segmentsOf q.data).map segContribution).sum)
    ∧ (∀ (q i u : String), lastResolvedUnit q = some u → (parse_quantity q i).2 = u)
    ∧ parse_quantity "1 cup + 2 tbsp" "water" = (270, "milliliters") := by
  refine ⟨parse_fst_eq_sum, ?_, ?_⟩
  · intro q i u h
    rw [parse_snd_eq q i, h]
  · with_unfolding_all decide

/-- C5 witness: in "1 l + 2" the last (and only) segment resolving a base
unit resolves "milliliters", and that is the returned unit. -/
theorem C5_witness : (parse_quantity "1 l + 2" "x").2 = "milliliters" :=
  C5_sum_and_last_unit.2.1 "1 l + 2" "x" "milliliters" (by with_unfolding_all decide)

/-- C7: the parser is total — malformed segments only ever contribute 0
(the amount is already determined by the well-formed segments), the empty
raw string parses to amount 0 with the fallback unit, and concrete
malformed inputs ("1/0" division by zero, "abc" no numeric token) are
skipped without affecting the rest of the parse. -/
theorem C7_parser_total :
    (∀ i : String, parse_quantity "" i = (0, fallbackUnit i))
    ∧ (∀ q i : String,
        (parse_quantity q i).1 =
          (((segmentsOf q.data).filter (fun p => (segEval p).isSome)).map segContribution).sum)
    ∧ parse_quantity "1/0 cup + 2 tbsp" "x" = (30, "milliliters")
    ∧ parse_quantity "abc" "milk" = (0, "milliliters") := by
  refine ⟨?_, ?_, ?_, ?_⟩
  · intro i
    rfl
  · intro q i
    rw [parse_fst_eq_sum, sum_filter_isSome]
  · with_unfolding_all decide
  · with_unfolding_all decide

/-- C6: for every numeric token `s` evaluating to `v` and every
alphabetic unit token `u` whose case-folded form has multiplier `m` in
the unit table, parsing the string `s ++ u` yields amount `v * m` and the
correct base unit: "grams" when the abbreviation is mass-origin
(g, kg, oz, lb) and "milliliters" otherwise (the volume-origin
abbreviations). -/
theorem C6_unit_table_conversion (s u i : String) (v m : ℚ)
    (hs : pyEval s.data = some v)
    (hsc : ∀ c ∈ s.data, numChar c = true)
    (hu : ∀ c ∈ u.data, c.isAlpha = true)
    (hm : unit_conversions.lookup (pyLower u) = some m) :
    parse_quantity (s ++ u) i =
      (v * m, if mass_units.contains (pyLower u) then "grams" else "milliliters") := by
  have hdata : (s ++ u).data = s.data ++ u.data := String.data_append s u
  have hs_ne : s.data ≠ [] := by
    intro h0
    rw [h0] at hs
    exact Option.noConfusion ((show pyEval ([] : List Char) = none from rfl) ▸ hs)
  have hu_ne : u.data ≠ [] := by
    intro h0
    have hempty : pyLower u = "" := by
      show (⟨u.data.map Char.toLower⟩ : String) = ""
      rw [h0]
      rfl
    rw [hempty] at hm
    exact Option.noConfusion
      ((show unit_conversions.lookup "" = none by with_unfolding_all decide) ▸ hm)
  have hplus : ∀ ch ∈ s.data ++ u.data, (ch == '+') = false := by
    intro ch hch
    rcases List.mem_append.mp hch with h1 | h1
    · exact numChar_ne_plus ch (hsc ch h1)
    · exact isAlpha_ne_plus ch (hu ch h1)
  have hsegs : segmentsOf (s ++ u).data = [s.data ++ u.data] := by
    rw [hdata]
    simp [segmentsOf, splitOnCh_no_sep '+' (s.data ++ u.data) hplus]
  have hu_head : ∀ c, u.data.head? = some c → c.isAlpha = true := by
    intro c hc
    cases hud : u.data with
    | nil => rw [hud] at hc; exact Option.noConfusion hc
    | cons c0 cs =>
      rw [hud] at hc
      have : c0 = c := by injection hc
      subst this
      exact hu c0 (by rw [hud]; simp)
  have hu_take : u.data.takeWhile numChar = [] := by
    apply takeWhile_eq_nil
    intro c hc
    exact isAlpha_not_numChar c (hu_head c hc)
  have htake : (s.data ++ u.data).takeWhile numChar = s.data := by
    rw [takeWhile_append_all numChar s.data u.data hsc, hu_take, List.append_nil]
  have hie : s.data.isEmpty = false := by
    cases hsd : s.data with
    | nil => exact absurd hsd hs_ne
    | cons a l => rfl
  have hreg : segRegex (s.data ++ u.data) = some (s.data, u.data) := by
    unfold segRegex
    simp only [htake, hie, Bool.false_eq_true, if_false, Option.some.injEq, Prod.mk.injEq]
    refine ⟨trivial, ?_⟩
    rw [List.drop_left]
    rw [dropWhile_eq_self isPySpace u.data
      (fun c hc => isAlpha_not_isPySpace c (hu_head c hc))]
    exact takeWhile_all Char.isAlpha u.data hu
  have hmm : unit_conversions.lookup (pyLower ⟨u.data⟩) = some m := hm
  have hseg : segEval (s.data ++ u.data) =
      some (v * m,
        some (if mass_units.contains (pyLower u) then "grams" else "milliliters")) := by
    unfold segEval
    simp only [hreg, hs, hmm]
  unfold parse_quantity
  rw [hsegs]
  simp only [parseLoop, hseg, zero_add]

/-- C6 witness: `parse("2kg", "x")` yields 2 × 1000 grams. -/
theorem C6_witness :
    parse_quantity ("2" ++ "kg") "x" =
      (2 * 1000, if mass_units.contains (pyLower "kg") then "grams" else "milliliters") :=
  C6_unit_table_conversion "2" "kg" "x" 2 1000
    (by with_unfolding_all decide) (by decide) (by decide) (by with_unfolding_all decide)

/-! ### Claims about consolidation, filtering and costing -/

/-- C1 counterexample: for the group "water" with tied units
["milliliters", "grams"] (in that order of first occurrence), the claim
predicts the first-encountered unit "milliliters"; the code (pandas
`mode().iloc[0]`, modes sorted ascending) picks "grams". -/
theorem C1_counterexample :
    consolidate_ingredients [("water", "1 ml"), ("water", "1 g")] none =
      some [{ ingredient := "water", quantity := 2, unit := "grams" }]
    ∧ groupUnits [("water", "1 ml"), ("water", "1 g")] "water" = ["milliliters", "grams"]
    ∧ ("grams" : String) ≠ "milliliters" := by
  with_unfolding_all decide

/-- C1 (amended): the unit of each consolidated row is a unit of maximal
multiplicity among the group's entries, but ties are broken by choosing
the lexicographically smallest tied unit (pandas returns the modes
sorted and `.iloc[0]` takes the first), not the first-encountered one. -/
theorem C1_mode_amended :
    ∀ (entries : List (String × String)) (r : Row),
      r ∈ (consolidate_ingredients entries none).getD [] →
        r.unit ∈ groupUnits entries r.ingredient
        ∧ (∀ u ∈ groupUnits entries r.ingredient,
            (groupUnits entries r.ingredient).count u ≤
              (groupUnits entries r.ingredient).count r.unit)
        ∧ (∀ u ∈ groupUnits entries r.ingredient,
            (groupUnits entries r.ingredient).count u =
              (groupUnits entries r.ingredient).count r.unit → r.unit ≤ u) := by
  intro entries r hr
  by_cases he : entries.isEmpty
  · simp [consolidate_ingredients, he] at hr
  · simp only [consolidate_ingredients, he, Bool.false_eq_true, if_false,
      Option.getD_some] at hr
    simp only [apply_filter] at hr
    simp only [groupRows] at hr
    obtain ⟨k, hk, rfl⟩ := List.mem_map.mp hr
    exact pandasMode_spec (groupUnits entries k) (groupUnits_ne_nil entries k hk)

/-- C1 witness: at the tie example the chosen unit "grams" does occur in
the group's unit list. -/
theorem C1_witness :
    ({ ingredient := "water", quantity := 2, unit := "grams" } : Row).unit ∈
      groupUnits [("water", "1 ml"), ("water", "1 g")] "water" :=
  (C1_mode_amended [("water", "1 ml"), ("water", "1 g")]
    { ingredient := "water", quantity := 2, unit := "grams" }
    (by with_unfolding_all decide)).1

/-- C2 counterexample: with the single entry ("eggs", "0") every entry
parses to amount zero, yet consolidation returns an empty successful row
collection (`some []`), not the distinguished "no ingredients found"
failure (`none`) the claim requires for that case. -/
theorem C2_counterexample :
    consolidate_ingredients [("eggs", "0")] none = some []
    ∧ consolidate_ingredients [("eggs", "0")] none ≠ none := by
  with_unfolding_all decide

/-- C2 (amended): the distinguished "no ingredients found" outcome is
reported exactly when the raw entry list is empty — it is checked before
parsing; nonempty input whose entries all parse to amount zero yields an
empty successful result instead. -/
theorem C2_empty_input_amended :
    (∀ f : Option String, consolidate_ingredients [] f = none)
    ∧ (∀ entries : List (String × String), entries ≠ [] →
        (consolidate_ingredients entries none).isSome = true)
    ∧ consolidate_ingredients [("eggs", "0")] none = some [] := by
  refine ⟨?_, ?_, ?_⟩
  · intro f
    rfl
  · intro entries h
    have hie : entries.isEmpty = false := by
      cases hc : entries with
      | nil => exact absurd hc h
      | cons a l => rfl
    simp [consolidate_ingredients, hie]
  · with_unfolding_all decide

/-- C2 witness: a nonempty entry list yields a successful (`some`)
result. -/
theorem C2_witness : (consolidate_ingredients [("eggs", "1")] none).isSome = true :=
  C2_empty_input_amended.2.1 [("eggs", "1")] (by decide)

/-- C8: applying a dietary filter is a pure row removal — an unset or
unrecognised filter name leaves the rows unchanged, the result is always
a sublist of the input (surviving rows bit-identical), and for a
recognised filter a row survives exactly when its case-folded ingredient
name is not in the exclusion set. -/
theorem C8_filter_row_removal :
    (∀ rows : List Row, apply_filter rows none = rows)
    ∧ (∀ (rows : List Row) (ft : String), dietary_filters.lookup ft = none →
        apply_filter rows (some ft) = rows)
    ∧ (∀ (rows : List Row) (f : Option String), (apply_filter rows f).Sublist rows)
    ∧ (∀ (rows : List Row) (ft : String) (ex : List String),
        dietary_filters.lookup ft = some ex →
        ∀ r : Row, r ∈ apply_filter rows (some ft) ↔
          r ∈ rows ∧ pyLower r.ingredient ∉ ex) := by
  refine ⟨fun rows => rfl, ?_, apply_filter_sublist, ?_⟩
  · intro rows ft h
    simp [apply_filter, h]
  · intro rows ft ex h r
    simp [apply_filter, h, List.mem_filter]

/-- C8 witness: an unrecognised filter name ("keto") leaves the rows
unchanged. -/
theorem C8_witness :
    apply_filter [{ ingredient := "eggs", quantity := 3, unit := "pieces" }] (some "keto") =
      [{ ingredient := "eggs", quantity := 3, unit := "pieces" }] :=
  C8_filter_row_removal.2.1 _ "keto" (by decide)

/-- C9: cost estimation is total and nonnegative — each row's cost equals
the cost-table value for its case-folded ingredient name (or the default
cost per unit when absent) times its quantity, and a nonnegative quantity
yields a nonnegative cost. -/
theorem C9_cost_total_nonneg :
    ∀ (rows : List Row) (r : Row) (c : ℚ), (r, c) ∈ calculate_costs rows →
      c = ((cost_database.lookup (pyLower r.ingredient)).getD default_cost_per_unit)
            * r.quantity
      ∧ (0 ≤ r.quantity → 0 ≤ c) := by
  intro rows r c hm
  simp only [calculate_costs, List.mem_map] at hm
  obtain ⟨r0, _, heq⟩ := hm
  cases heq
  constructor
  · rfl
  · intro hq
    have hall : ∀ p ∈ cost_database, 0 ≤ p.2 := by with_unfolding_all decide
    have hd : (0 : ℚ) ≤ default_cost_per_unit := by with_unfolding_all decide
    exact mul_nonneg (lookup_getD_nonneg cost_database hall _ _ hd) hq

/-- C9 witness: the flour row at quantity 200 is costed from the table
and its cost is nonnegative. -/
theorem C9_witness :
    get_cost "flour" 200 =
      ((cost_database.lookup (pyLower "flour")).getD default_cost_per_unit) * (200 : ℚ)
    ∧ 0 ≤ get_cost "flour" 200 := by
  have h := C9_cost_total_nonneg
    [{ ingredient := "flour", quantity := 200, unit := "grams" }]
    { ingredient := "flour", quantity := 200, unit := "grams" }
    (get_cost "flour" 200) (by with_unfolding_all decide)
  exact ⟨h.1, h.2 (by norm_num)⟩

/-- C10: every row of a successful consolidation has strictly positive
quantity — entries whose parsed amount is not positive are dropped before
grouping, and each group sums a nonempty list of positive amounts. -/
theorem C10_positive_quantities :
    ∀ (entries : List (String × String)) (f : Option String) (rows : List Row),
      consolidate_ingredients entries f = some rows → ∀ r ∈ rows, 0 < r.quantity := by
  intro entries f rows h r hr
  by_cases he : entries.isEmpty
  · simp [consolidate_ingredients, he] at h
  · simp only [consolidate_ingredients, he, Bool.false_eq_true, if_false,
      Option.some.injEq] at h
    subst h
    have hr2 : r ∈ groupRows entries :=
      (apply_filter_sublist (groupRows entries) f).subset hr
    simp only [groupRows] at hr2
    obtain ⟨k, hk, rfl⟩ := List.mem_map.mp hr2
    apply List.sum_pos
    · intro a ha
      obtain ⟨p, hp, hpa⟩ := List.mem_map.mp ha
      have hp2 : p ∈ (parsedEntries entries).filter (fun p => decide (0 < p.2.1)) :=
        (List.mem_filter.mp hp).1
      have hpos : 0 < p.2.1 := by
        have := (List.mem_filter.mp hp2).2
        rwa [decide_eq_true_eq] at this
      exact hpa ▸ hpos
    · intro h0
      apply group_ne_nil entries k hk
      exact List.eq_nil_of_length_eq_zero (by simpa using congrArg List.length h0)

/-- C10 witness: the consolidated eggs row has quantity 2 > 0. -/
theorem C10_witness :
    0 < ({ ingredient := "eggs", quantity := 2, unit := "pieces" } : Row).quantity :=
  C10_positive_quantities [("eggs", "2")] none
    [{ ingredient := "eggs", quantity := 2, unit := "pieces" }]
    (by with_unfolding_all decide) _ (by simp)

end SmartGrocery
